import Mathlib

/-!
Verification development for the Arduino build/flash orchestrator
(src/src/upload/arduino.js). The JavaScript class is shallowly embedded:
pure computations become Lean functions, the mutable instance fields
(leonardoPath, makeymakeyPath) become an explicit state record threaded
through each operation, and the injected connect/disconnect/list
capabilities and process spawns become events collected in a trace.
-/

namespace ArduinoUpload

/-- Configuration record passed to the constructor (this._config).
The flash code interpolates partno, programmerId and baudrate into
strings, so they are modelled as strings. -/
structure Cfg where
  fqbn : String
  partno : String
  programmerId : String
  baudrate : String
deriving DecidableEq, Repr

/-- Peripheral entry as consumed by the rediscovery scan: the code reads
device.pnpId and device.path. -/
structure Device where
  pnpId : String
  path : String
deriving DecidableEq, Repr

/-- Device directory: the static usb-id table, a finite map from the
21-character pnpId prefix to a device name.  Modelled from the spec:
the table itself lives in src/lib/usb-id.js which is not part of the
given sources, so it is kept abstract as an association list; every
theorem quantifies over it or instantiates it concretely. -/
abbrev Dir := List (String × String)

/-- Mutable instance state: this._leonardoPath and this._makeymakeyPath
(source lines 30-31), null at construction and only ever written by the
leonardo() / makeymakey() rediscovery scans. -/
structure St where
  leonardoPath : Option String
  makeymakeyPath : Option String
deriving DecidableEq, Repr

/-- Constructor state: both rediscovery caches are null (lines 30-31). -/
def initSt : St := { leonardoPath := none, makeymakeyPath := none }

/-- Constructor arguments that the claims depend on.  The path fields
this._tempfilePath, this._arduinoPath and so on are derived below
exactly as in the constructor (lines 17-40). -/
structure Arduino where
  peripheralPath : String
  config : Cfg
  userDataPath : String
  toolsPath : String
deriving DecidableEq, Repr

/-- Model of node path.join: the claims never depend on path
normalisation, only on the joined strings being passed through, so join
is modelled as separator concatenation. -/
def pathJoin (a b : String) : String := a ++ "/" ++ b

def Arduino.tempfilePath (x : Arduino) : String := pathJoin x.userDataPath "arduino/project"

def Arduino.arduinoPath (x : Arduino) : String := pathJoin x.toolsPath "Arduino"

def Arduino.arduinoBuilderPath (x : Arduino) : String := pathJoin x.arduinoPath "arduino-builder"

def Arduino.avrdudePath (x : Arduino) : String := pathJoin x.arduinoPath "hardware/tools/avr/bin/avrdude"

def Arduino.avrdudeConfigPath (x : Arduino) : String := pathJoin x.arduinoPath "hardware/tools/avr/etc/avrdude.conf"

def Arduino.codefilePath (x : Arduino) : String := pathJoin x.tempfilePath "arduino.ino"

def Arduino.projectPath (x : Arduino) : String := pathJoin x.tempfilePath "build"

def Arduino.hexPath (x : Arduino) : String := pathJoin x.projectPath "arduino.ino.hex"

/-- JavaScript truthiness of a nullable string: null and the empty
string are falsy, every other string is truthy.  The source tests the
cached paths and the firmwarePath argument with bare ternaries. -/
def jsTruthy : Option String → Bool
  | none => false
  | some s => !(s == "")

/-- Directory lookup with the sentinel, embedding line 147:
usbId[pnpid] ? usbId[pnpid] : (the string) Unknown device.  A present
but empty name is falsy in JavaScript and also yields the sentinel. -/
def lookupUsb (dir : Dir) (key : String) : String :=
  match dir.lookup key with
  | some n => if n == "" then "Unknown device" else n
  | none => "Unknown device"

/-- Resolved name of one peripheral entry (lines 145-147): the first 21
characters of its pnpId looked up in the directory. -/
def nameOf (dir : Dir) (d : Device) : String := lookupUsb dir (d.pnpId.take 21)

/-- Embedding of the forEach scan (lines 144-151): every matching entry
overwrites the cached path; the accumulator starts from the current
value of the instance field. -/
def scanFold (dir : Dir) (target : String) (init : Option String) (devs : List Device) : Option String :=
  devs.foldl (fun acc d => if nameOf dir d = target then some d.path else acc) init

/-- Typed failure for the rediscovery miss (lines 153 and 157). -/
inductive FlashErr where
  | deviceNotFound (msg : String)
deriving DecidableEq, Repr

/-- Embedding of the rediscovery promise (lines 140-159): a null
peripheral list rejects; otherwise the list is scanned in full and the
operation rejects exactly when the cache is still null afterwards,
resolving with the cached path otherwise. -/
def rediscoverFrom (dir : Dir) (target errMsg : String) (init : Option String)
    (listRes : Option (List Device)) : Except FlashErr String :=
  match listRes with
  | none => .error (.deviceNotFound errMsg)
  | some devs =>
    match scanFold dir target init devs with
    | none => .error (.deviceNotFound errMsg)
    | some p => .ok p

/-- Events observable from a flash operation: capability calls of the
bootloader handshake, the fixed delays, and the avrdude spawn with its
full argument list. -/
inductive Ev where
  | connect (baud : Nat) (exclusive : Bool)
  | wait (ms : Nat)
  | disconnect
  | list
  | spawnAvrdude (args : List String)
deriving DecidableEq, Repr

def isConnectEv : Ev → Bool
  | .connect _ _ => true
  | _ => false

def isDisconnectEv : Ev → Bool
  | .disconnect => true
  | _ => false

def isListEv : Ev → Bool
  | .list => true
  | _ => false

/-- Capability-call sequence of leonardo()/makeymakey() (lines 128-142
and 163-177): connect with the baud rate overridden to 1200 and
exclusive true, a 100 ms wait, disconnect, a 1000 ms wait, then the
peripheral-list rescan. -/
def handshakeEvents : List Ev :=
  [.connect 1200 true, .wait 100, .disconnect, .wait 1000, .list]

/-- Port precedence of line 211: the leonardo cache if truthy, else the
makeymakey cache if truthy, else the originally supplied path. -/
def portSel (leo mak : Option String) (periph : String) : String :=
  if jsTruthy leo then "-P" ++ leo.getD ""
  else if jsTruthy mak then "-P" ++ mak.getD ""
  else "-P" ++ periph

/-- Avrdude argument list (lines 205-215).  The firmwarePath parameter
defaults to null and is tested with a ternary, hence jsTruthy. -/
def avrdudeArgs (inst : Arduino) (st : St) (fw : Option String) : List String :=
  ["-C", inst.avrdudeConfigPath, "-v",
   "-p" ++ inst.config.partno,
   "-c" ++ inst.config.programmerId,
   portSel st.leonardoPath st.makeymakeyPath inst.peripheralPath,
   "-b" ++ inst.config.baudrate,
   "-D",
   if jsTruthy fw then "-Uflash:w:" ++ fw.getD "" ++ ":i"
   else "-Uflash:w:" ++ inst.hexPath ++ ":i"]

/-- Embedding of one flash(firmwarePath) invocation (lines 197-215) up
to the avrdude spawn.  It returns the event trace together with either
the rediscovery failure (the awaited leonardo()/makeymakey() rejection
aborts flash before any spawn) or the updated instance state paired
with the argument list handed to spawn.  The environment supplies the
result of the single list() call performed by the handshake. -/
def flashRun (dir : Dir) (inst : Arduino) (st : St) (listRes : Option (List Device))
    (fw : Option String) : List Ev × Except FlashErr (St × List String) :=
  if inst.config.fqbn = "arduino:avr:leonardo" then
    match rediscoverFrom dir "Arduino Leonardo" "cannot discover leonardo" st.leonardoPath listRes with
    | .error e => (handshakeEvents, .error e)
    | .ok p =>
      let st' : St := { st with leonardoPath := some p }
      (handshakeEvents ++ [.spawnAvrdude (avrdudeArgs inst st' fw)], .ok (st', avrdudeArgs inst st' fw))
  else if inst.config.fqbn = "SparkFun:avr:makeymakey" then
    match rediscoverFrom dir "Makey Makey" "cannot discover makeymakey" st.makeymakeyPath listRes with
    | .error e => (handshakeEvents, .error e)
    | .ok p =>
      let st' : St := { st with makeymakeyPath := some p }
      (handshakeEvents ++ [.spawnAvrdude (avrdudeArgs inst st' fw)], .ok (st', avrdudeArgs inst st' fw))
  else
    ([.spawnAvrdude (avrdudeArgs inst st fw)], .ok (st, avrdudeArgs inst st fw))

/-- Sequence of flash invocations on one instance.  Each element of the
input list supplies the environment of one call: the list() result and
the firmwarePath argument.  The instance state persists across calls;
a failed call leaves the state it had already written. -/
def flashSeq (dir : Dir) (inst : Arduino) :
    List (Option (List Device) × Option String) → St → List (List Ev) × St
  | [], st => ([], st)
  | (lr, fw) :: rest, st =>
    let r := flashRun dir inst st lr fw
    let st' := match r.2 with
      | .ok (s, _) => s
      | .error _ => st
    let rec' := flashSeq dir inst rest st'
    (r.1 :: rec'.1, rec'.2)

/-- Outcome of the avrdude exit handler. -/
inductive FlashDone where
  | success
  | flashFailed
deriving DecidableEq, Repr

/-- Embedding of the avrdude exit switch (lines 243-261).  The result is
the settle delay in milliseconds before delivery paired with the
outcome; none means the switch falls through and the promise is never
settled.  The handler inspects only the exit code and the configured
fqbn, never the stream content. -/
def avrdudeOnExit (fqbn : String) (code : Int) : Option (Nat × FlashDone) :=
  if code = 0 then
    if fqbn = "arduino:avr:leonardo" then some (1000, .success)
    else if fqbn = "SparkFun:avr:makeymakey" then some (1000, .success)
    else some (0, .success)
  else if code = 1 then some (0, .flashFailed)
  else none

/-- Outcome of the arduino-builder exit handler: success is the promise
resolution, the other constructors are the typed rejections. -/
inductive BuildOutcome where
  | success
  | buildFailed
  | sketchNotFound
  | invalidArguments
  | unknownPreference
deriving DecidableEq, Repr

/-- Embedding of the arduino-builder exit switch (lines 105-119).  It
inspects only the exit code; none means no case matches and the build
promise is never settled. -/
def builderOnExit (code : Int) : Option BuildOutcome :=
  if code = 0 then some .success
  else if code = 1 then some .buildFailed
  else if code = 2 then some .sketchNotFound
  else if code = 3 then some .invalidArguments
  else if code = 4 then some .unknownPreference
  else none

/-- Path of the external extensions libraries directory (line 82). -/
def extensionsLibraries (x : Arduino) : String :=
  pathJoin x.userDataPath "../extensions/libraries/Arduino"

/-- Fixed base argument list of the arduino-builder invocation
(lines 66-79). -/
def baseArgs (x : Arduino) : List String :=
  ["-compile",
   "-logger=human",
   "-hardware", pathJoin x.arduinoPath "hardware",
   "-tools", pathJoin x.arduinoPath "tools-builder",
   "-tools", pathJoin x.arduinoPath "hardware/tools/avr",
   "-libraries", pathJoin x.arduinoPath "libraries",
   "-fqbn", x.config.fqbn,
   "-build-path", pathJoin x.tempfilePath "build",
   "-build-cache", pathJoin x.tempfilePath "cache",
   "-warnings=none",
   "-verbose",
   x.codefilePath]

/-- Final builder argument list (lines 81-85): when the extensions
libraries directory exists, args.splice(6, 0, ...) inserts the pair at
index 6 of the base list. -/
def buildArgs (x : Arduino) (extExists : Bool) : List String :=
  if extExists then
    (baseArgs x).take 6 ++ ["-libraries", extensionsLibraries x] ++ (baseArgs x).drop 6
  else baseArgs x

/-- Observable events of one build(code) invocation, in execution
order. -/
inductive BuildEv where
  | ensureDir (p : String)
  | osLocaleCall
  | checkExtDir (p : String)
  | spawnBuilder (args : List String)
  | writeCode (p : String)
deriving DecidableEq, Repr

def isSpawnBuilderEv : BuildEv → Bool
  | .spawnBuilder _ => true
  | _ => false

def isWriteCodeEv : BuildEv → Bool
  | .writeCode _ => true
  | _ => false

/-- Event trace of one build(code) invocation that completes normally
(lines 42-120).  The ordering embeds the JavaScript promise semantics:
the executor body runs synchronously and in source order performs the
two directory checks (lines 44-50), calls osLocale() and registers a
then-callback (line 52), checks the extensions directory (line 83) and
spawns arduino-builder (line 87).  The then-callback, which is the one
that performs writeFileSync of the sketch (line 60), is a promise job
and can only run after the synchronous executor body has returned, so
the write event comes strictly after the spawn event.  The osLocale()
promise is never awaited by the executor. -/
def buildTrace (x : Arduino) (extExists : Bool) : List BuildEv :=
  [.ensureDir x.projectPath,
   .ensureDir (pathJoin x.tempfilePath "cache"),
   .osLocaleCall,
   .checkExtDir (extensionsLibraries x),
   .spawnBuilder (buildArgs x extExists),
   .writeCode x.codefilePath]

/-- Escape character heading every ansi color code. -/
def escCh : Char := Char.ofNat 27

/-- Characters that may occur in the body of an ansi color code after
the escape character. -/
def ansiBody : List Char := "[;0123456789m".toList

/-- Shape of the ansi-string color codes spliced into avrdude output.
Modelled from the spec: the concrete codes come from the external
ansi-string package (an out-of-scope collaborator, "embedded
color/style tags"); every marker is an escape character followed by
bracket, digits, semicolons and the final letter m, which is all the
classification argument needs. -/
def IsAnsiMarker (m : List Char) : Prop :=
  m.head? = some escCh ∧ ∀ ch ∈ m.tail, ch ∈ ansiBody

instance (m : List Char) : Decidable (IsAnsiMarker m) :=
  inferInstanceAs (Decidable (m.head? = some escCh ∧ ∀ ch ∈ m.tail, ch ∈ ansiBody))

/-- Pattern occurrence: the pattern p occurs in s at position i. -/
def occursAt (p s : List Char) (i : Nat) : Prop := (s.drop i).take p.length = p

/-- Index of the first occurrence of the literal pattern p in s, the
embedding of String.prototype.search for a literal regex alternative;
none when there is no occurrence, mirroring a -1 result. -/
def findPat (p : List Char) : List Char → Option Nat
  | [] => if ([] : List Char).take p.length = p then some 0 else none
  | ch :: s => if ((ch :: s).take p.length) = p then some 0 else (findPat p (s)).map (· + 1)

/-- Minimum of two optional indices, none acting as infinity. -/
def optMin : Option Nat → Option Nat → Option Nat
  | none, b => b
  | some x, none => some x
  | some x, some y => some (min x y)

/-- Leftmost match position of a regex alternation of literal
patterns: the minimum of the per-pattern first positions. -/
def findAny (ps : List (List Char)) (s : List Char) : Option Nat :=
  ps.foldr (fun p acc => optMin (findPat p s) acc) none

/-- Embedding of Arduino._insertStr (lines 123-125):
slice(0, start) + newStr + slice(start). -/
def insertStr (soure : List Char) (start : Nat) (newStr : List Char) : List Char :=
  soure.take start ++ newStr ++ soure.drop start

/-- Literal alternatives of AVRDUDE_STDOUT_GREEN_START (line 11). -/
def greenStartPats : List (List Char) := ["Reading |".toList, "Writing |".toList]

/-- Literal pattern of AVRDUDE_STDOUT_GREEN_END (line 12). -/
def percentPat : List Char := ['%']

/-- Literal pattern of AVRDUDE_STDOUT_WHITE (line 13). -/
def donePat : List Char := "avrdude done".toList

/-- Literal alternatives of AVRDUDE_STDOUT_RED_START (line 14); the
apostrophe is written by code point. -/
def redStartPats : List (List Char) :=
  ["can".toList ++ [Char.ofNat 39] ++ "t open device".toList,
   "programmer is not responding".toList]

/-- First classification step (lines 222-224): insert the green
marker at the position of the first reading/writing progress match. -/
def step1 (g data : List Char) : List Char :=
  match findAny greenStartPats data with
  | some i => insertStr data i g
  | none => data

/-- Second classification step (lines 225-227): insert the clear
marker immediately after the first percent sign. -/
def step2 (c d : List Char) : List Char :=
  match findPat percentPat d with
  | some j => insertStr d (j + 1) c
  | none => d

/-- Third classification step (lines 228-230): insert the clear
marker at the position of the done banner match. -/
def step3 (c d : List Char) : List Char :=
  match findPat donePat d with
  | some k => insertStr d k c
  | none => d

/-- Fourth classification step (lines 231-233): insert the red marker
at the position of the first error-pattern match. -/
def step4 (r d : List Char) : List Char :=
  match findAny redStartPats d with
  | some l => insertStr d l r
  | none => d

/-- Embedding of the avrdude stderr data handler (lines 217-235): the
four conditional insertions applied in source order, each searching
the chunk as modified by the previous steps, with the given green,
clear and red marker strings. -/
def classifyChunk (g c r data : List Char) : List Char :=
  step4 r (step3 c (step2 c (step1 g data)))

/-- Concrete green marker (standard dark-green ansi code), used by
witnesses. -/
def gMark : List Char := escCh :: "[2;32m".toList

/-- Concrete clear marker (standard reset ansi code). -/
def cMark : List Char := escCh :: "[0m".toList

/-- Concrete red marker (standard red ansi code). -/
def rMark : List Char := escCh :: "[31m".toList

/-- Concrete avrdude stderr chunk with plain text before the progress
pattern and after the percent sign. -/
def chunk0 : List Char := "ab Reading | 45%z".toList

/-- Concrete 21-character usb identifier prefix used by the concrete
scenarios below. -/
def pnp0 : String := "USB-VID:2341-PID:8036"

/-- Concrete device directory mapping pnp0 to the Leonardo name. -/
def dir0 : Dir := [(pnp0, "Arduino Leonardo")]

/-- Concrete peripheral whose pnpId starts with pnp0 and whose path is
COM5. -/
def dev0 : Device := { pnpId := pnp0 ++ "-extra", path := "COM5" }

/-- Concrete Leonardo-configured instance supplied with peripheral path
COM3. -/
def inst0 : Arduino :=
  { peripheralPath := "COM3"
    config :=
      { fqbn := "arduino:avr:leonardo"
        partno := "atmega32u4"
        programmerId := "avr109"
        baudrate := "57600" }
    userDataPath := "ud"
    toolsPath := "tp" }

/-- Instance state after a flash on inst0 rediscovered dev0: the
leonardo cache holds COM5. -/
def st1 : St := { leonardoPath := some "COM5", makeymakeyPath := none }

/-- Concrete non-touch-reset instance (an Uno profile). -/
def inst0u : Arduino :=
  { peripheralPath := "COM3"
    config :=
      { fqbn := "arduino:avr:uno"
        partno := "atmega328p"
        programmerId := "arduino"
        baudrate := "115200" }
    userDataPath := "ud"
    toolsPath := "tp" }

/-- Concrete Makey Makey configured instance. -/
def instMM : Arduino :=
  { peripheralPath := "COM4"
    config :=
      { fqbn := "SparkFun:avr:makeymakey"
        partno := "atmega32u4"
        programmerId := "avr109"
        baudrate := "57600" }
    userDataPath := "ud"
    toolsPath := "tp" }

/-- Concrete 21-character identifier prefix for the Makey Makey. -/
def pnpMM : String := "USB-VID:1B4F-PID:2B75"

/-- Concrete directory holding both known boards. -/
def dirMM : Dir := [(pnp0, "Arduino Leonardo"), (pnpMM, "Makey Makey")]

/-- Concrete Makey Makey peripheral at path COM9. -/
def devMM : Device := { pnpId := pnpMM ++ "-x", path := "COM9" }

/-- Instance state holding a cached leonardo path COM7, as an earlier
leonardo flash on the same instance would leave it. -/
def stLeo7 : St := { leonardoPath := some "COM7", makeymakeyPath := none }

/-- Concrete environment inputs for a two-flash sequence on a non-touch
board: first call sees an empty rescan result and no explicit firmware,
second call gets an explicit firmware path. -/
def ins0 : List (Option (List Device) × Option String) :=
  [(some [], none), (none, some "fw.hex")]

end ArduinoUpload

namespace ArduinoUpload

/-- Claim C2 evidence: the builder exit switch maps 0 through 4 exactly
as specified, but any other exit code (5 here, representative) matches
no case and the build promise is never settled, so no failure surfaces
to the caller. -/
theorem build_exit_code_mapping :
    builderOnExit 0 = some BuildOutcome.success ∧
    builderOnExit 1 = some BuildOutcome.buildFailed ∧
    builderOnExit 2 = some BuildOutcome.sketchNotFound ∧
    builderOnExit 3 = some BuildOutcome.invalidArguments ∧
    builderOnExit 4 = some BuildOutcome.unknownPreference ∧
    builderOnExit 5 = none ∧
    builderOnExit (-1) = none := by
  decide

/-- Claim C6 evidence: avrdude exit code 0 resolves success with a
1000 ms settle delay for the two touch-reset fqbns and immediately for
any other board, exit code 1 rejects with the flash failure, but any
other exit code (2 here, representative) matches no switch case and
the flash promise is never settled. -/
theorem flash_exit_code_mapping :
    avrdudeOnExit "arduino:avr:leonardo" 0 = some (1000, FlashDone.success) ∧
    avrdudeOnExit "SparkFun:avr:makeymakey" 0 = some (1000, FlashDone.success) ∧
    avrdudeOnExit "arduino:avr:uno" 0 = some (0, FlashDone.success) ∧
    (∀ fqbn : String, avrdudeOnExit fqbn 1 = some (0, FlashDone.flashFailed)) ∧
    (∀ fqbn : String, avrdudeOnExit fqbn 2 = none) := by
  refine ⟨by decide, by decide, by decide, ?_, ?_⟩
  · intro fqbn
    simp [avrdudeOnExit]
  · intro fqbn
    simp [avrdudeOnExit]

/-- Helper: the overwrite-on-each-match fold over the peripheral list
equals the last entry of the filtered match list, falling back to the
initial accumulator when nothing matches. -/
theorem scanFold_eq_lastMatch (dir : Dir) (target : String) :
    ∀ (devs : List Device) (init : Option String),
      scanFold dir target init devs =
        match (devs.filter (fun d => decide (nameOf dir d = target))).getLast? with
        | some d => some d.path
        | none => init := by
  intro devs
  induction devs with
  | nil => intro init; rfl
  | cons d rest ih =>
    intro init
    by_cases h : nameOf dir d = target
    · have hstep : scanFold dir target init (d :: rest) =
          scanFold dir target (some d.path) rest := by
        simp [scanFold, h]
      rw [hstep, ih]
      cases hl : rest.filter (fun d => decide (nameOf dir d = target)) with
      | nil => simp [h, hl]
      | cons e es =>
        simp [h, hl, List.getLast?_cons_cons]
        cases hsome : (e :: es).getLast? with
        | none => exact absurd (List.getLast?_eq_none_iff.mp hsome) (by simp)
        | some y => rfl
    · have hstep : scanFold dir target init (d :: rest) =
          scanFold dir target init rest := by
        simp [scanFold, h]
      rw [hstep, ih]
      simp [h]

/-- Claim C4: rediscovery over a peripheral list scans the whole list,
resolving each entry through the directory on the first 21 identifier
characters; it fails with the device-not-found rejection when the list
is null or when no entry resolves to the target name, and otherwise
returns the path of the last matching entry in scan order, so with one
match it returns that path and with several the later one wins. -/
theorem rediscovery_last_match_characterization (dir : Dir) (target errMsg : String)
    (listRes : Option (List Device)) :
    rediscoverFrom dir target errMsg none listRes =
      match listRes with
      | none => .error (.deviceNotFound errMsg)
      | some devs =>
        match (devs.filter (fun d => decide (nameOf dir d = target))).getLast? with
        | none => .error (.deviceNotFound errMsg)
        | some d => .ok d.path := by
  cases listRes with
  | none => rfl
  | some devs =>
    simp only [rediscoverFrom]
    rw [scanFold_eq_lastMatch]
    cases (devs.filter (fun d => decide (nameOf dir d = target))).getLast? <;> rfl

/-- Helper: findPat is none exactly when the pattern occurs nowhere. -/
theorem findPat_eq_none_iff (p : List Char) :
    ∀ s : List Char, findPat p s = none ↔ ∀ i, ¬ occursAt p s i := by
  intro s
  induction s with
  | nil =>
    by_cases h : (([] : List Char).take p.length = p)
    · simp only [findPat, if_pos h]
      constructor
      · intro he; exact absurd he (by simp)
      · intro hall; exact absurd h (hall 0)
    · simp only [findPat, if_neg h]
      constructor
      · intro _ i hocc
        refine h ?_
        have hx := hocc
        rwa [occursAt, List.drop_nil] at hx
      · intro _; trivial
  | cons chr s ih =>
    by_cases h : ((chr :: s).take p.length = p)
    · simp only [findPat, if_pos h]
      constructor
      · intro he; exact absurd he (by simp)
      · intro hall; exact absurd h (hall 0)
    · simp only [findPat, if_neg h]
      constructor
      · intro he i hocc
        have hnone : findPat p s = none := by
          cases hfs : findPat p s with
          | none => rfl
          | some v => rw [hfs] at he; simp at he
        cases i with
        | zero => exact h hocc
        | succ i' => exact (ih.mp hnone) i' hocc
      · intro hall
        have hnone : findPat p s = none := ih.mpr (fun i => hall (i + 1))
        rw [hnone]; rfl

/-- Helper: findPat returns some i exactly when the pattern occurs at i
and at no earlier position. -/
theorem findPat_eq_some_iff (p : List Char) :
    ∀ (s : List Char) (i : Nat),
      findPat p s = some i ↔ (occursAt p s i ∧ ∀ j, j < i → ¬ occursAt p s j) := by
  intro s
  induction s with
  | nil =>
    intro i
    by_cases h : (([] : List Char).take p.length = p)
    · simp only [findPat, if_pos h]
      constructor
      · intro he
        cases he
        exact ⟨h, fun j hj => absurd hj (Nat.not_lt_zero j)⟩
      · rintro ⟨hocc, hmin⟩
        have hi0 : i = 0 := by
          by_contra hne
          exact hmin 0 (Nat.pos_of_ne_zero hne) h
        subst hi0; rfl
    · simp only [findPat, if_neg h]
      constructor
      · intro he; exact absurd he (by simp)
      · rintro ⟨hocc, _⟩
        refine absurd ?_ h
        have hx := hocc
        rwa [occursAt, List.drop_nil] at hx
  | cons chr s ih =>
    intro i
    by_cases h : ((chr :: s).take p.length = p)
    · simp only [findPat, if_pos h]
      constructor
      · intro he
        cases he
        exact ⟨h, fun j hj => absurd hj (Nat.not_lt_zero j)⟩
      · rintro ⟨hocc, hmin⟩
        have hi0 : i = 0 := by
          by_contra hne
          exact hmin 0 (Nat.pos_of_ne_zero hne) h
        subst hi0; rfl
    · simp only [findPat, if_neg h]
      constructor
      · intro he
        rcases Option.map_eq_some'.mp he with ⟨i', hi', hadd⟩
        subst hadd
        obtain ⟨hocc', hmin'⟩ := (ih i').mp hi'
        refine ⟨hocc', ?_⟩
        intro j hj
        cases j with
        | zero => exact h
        | succ j' => exact hmin' j' (by omega)
      · rintro ⟨hocc, hmin⟩
        cases i with
        | zero => exact absurd hocc h
        | succ i' =>
          have hs : findPat p s = some i' :=
            (ih i').mpr ⟨hocc, fun j hj => hmin (j + 1) (by omega)⟩
          rw [hs]; rfl

/-- Helper: optMin is none exactly when both arguments are. -/
theorem optMin_eq_none_iff (a b : Option Nat) :
    optMin a b = none ↔ a = none ∧ b = none := by
  cases a <;> cases b <;> simp [optMin]

/-- Helper: an alternation has no match exactly when none of its
alternatives does. -/
theorem findAny_eq_none_iff (ps : List (List Char)) (s : List Char) :
    findAny ps s = none ↔ ∀ p ∈ ps, findPat p s = none := by
  induction ps with
  | nil => simp [findAny]
  | cons q qs ih =>
    show optMin (findPat q s) (findAny qs s) = none ↔ _
    rw [optMin_eq_none_iff]
    constructor
    · rintro ⟨h1, h2⟩ p hp
      rcases List.mem_cons.mp hp with rfl | hp'
      · exact h1
      · exact (ih.mp h2) p hp'
    · intro hall
      exact ⟨hall q (List.mem_cons_self q qs),
        ih.mpr (fun p hp => hall p (List.mem_cons_of_mem q hp))⟩

/-- Helper: the head of a drop is the element at the drop index. -/
theorem head?_drop_eq_get? (s : List Char) (k : Nat) : (s.drop k).head? = s.get? k := by
  rw [← List.get?_zero, List.get?_drop, Nat.add_zero]

/-- Helper: taking one element yields a given singleton exactly when
the head is that element. -/
theorem take_one_eq_singleton_iff (l : List Char) (ch : Char) :
    l.take 1 = [ch] ↔ l.head? = some ch := by
  cases l <;> simp

/-- Helper: a single-character pattern occurs at k exactly when the
character sits at index k. -/
theorem occursAt_single_iff (ch : Char) (s : List Char) (k : Nat) :
    occursAt [ch] s k ↔ s.get? k = some ch := by
  unfold occursAt
  rw [show ([ch] : List Char).length = 1 from rfl, take_one_eq_singleton_iff,
    head?_drop_eq_get?]

/-- Helper: an occurrence pins every character of the pattern to the
corresponding index of the text. -/
theorem occursAt_get? {p s : List Char} {k : Nat} (h : occursAt p s k) :
    ∀ idx, idx < p.length → s.get? (k + idx) = p.get? idx := by
  intro idx hidx
  have h' := congrArg (fun l => List.get? l idx) h
  simp only at h'
  rw [List.get?_take hidx, List.get?_drop] at h'
  exact h'

/-- Helper: an occurrence that fits inside the left part of an append
is an occurrence in the left part, and conversely. -/
theorem occursAt_append_inner {p x : List Char} (y : List Char) {k : Nat}
    (hk : k + p.length ≤ x.length) : occursAt p (x ++ y) k ↔ occursAt p x k := by
  unfold occursAt
  rw [List.drop_append_eq_append_drop, List.take_append_eq_append_take]
  have h1 : (x.drop k).length = x.length - k := List.length_drop k x
  have h2 : p.length - (x.drop k).length = 0 := by omega
  rw [h2, List.take_zero, List.append_nil]

/-- Helper: insertion preserves every original character in order. -/
theorem sublist_insertStr (l : List Char) (n : Nat) (m : List Char) :
    l.Sublist (insertStr l n m) := by
  unfold insertStr
  conv_lhs => rw [← List.take_append_drop n l]
  exact (List.sublist_append_left (l.take n) m).append (List.Sublist.refl (l.drop n))

/-- Helper: the first classification step only inserts. -/
theorem sublist_step1 (g d : List Char) : d.Sublist (step1 g d) := by
  unfold step1
  cases findAny greenStartPats d with
  | some i => exact sublist_insertStr d i g
  | none => exact List.Sublist.refl d

/-- Helper: the second classification step only inserts. -/
theorem sublist_step2 (c d : List Char) : d.Sublist (step2 c d) := by
  unfold step2
  cases findPat percentPat d with
  | some j => exact sublist_insertStr d (j + 1) c
  | none => exact List.Sublist.refl d

/-- Helper: the third classification step only inserts. -/
theorem sublist_step3 (c d : List Char) : d.Sublist (step3 c d) := by
  unfold step3
  cases findPat donePat d with
  | some k => exact sublist_insertStr d k c
  | none => exact List.Sublist.refl d

/-- Helper: the fourth classification step only inserts. -/
theorem sublist_step4 (r d : List Char) : d.Sublist (step4 r d) := by
  unfold step4
  cases findAny redStartPats d with
  | some l => exact sublist_insertStr d l r
  | none => exact List.Sublist.refl d

/-- Helper: a character outside the ansi alphabet and different from
the escape character does not occur in an ansi marker. -/
theorem marker_not_mem {m : List Char} (hm : IsAnsiMarker m) {ch : Char}
    (h1 : ch ∉ ansiBody) (h2 : ch ≠ escCh) : ch ∉ m := by
  obtain ⟨hmh, hmt⟩ := hm
  intro hmem
  cases m with
  | nil => simp at hmem
  | cons me mt =>
    have hme : me = escCh := by simpa using hmh
    rcases List.mem_cons.mp hmem with rfl | hmem'
    · exact h2 hme
    · exact h1 (hmt ch hmem')

/-- Helper: inserting a string free of a character at or before the
first occurrence of that character shifts the first occurrence by the
inserted length. -/
theorem findPat_single_insert (ch : Char) (data g : List Char) (i j : Nat)
    (hij : i ≤ j) (hj : findPat [ch] data = some j) (hg : ch ∉ g) :
    findPat [ch] (insertStr data i g) = some (g.length + j) := by
  obtain ⟨hocc, hmin⟩ := (findPat_eq_some_iff [ch] data j).mp hj
  have hjget : data.get? j = some ch := (occursAt_single_iff ch data j).mp hocc
  have hjlen : j < data.length := by
    rcases List.get?_eq_some.mp hjget with ⟨hlt, _⟩
    exact hlt
  have hta : (data.take i).length = i := by
    rw [List.length_take]; omega
  rw [findPat_eq_some_iff]
  constructor
  · rw [occursAt_single_iff]
    unfold insertStr
    rw [List.append_assoc]
    rw [List.get?_append_right (by omega : (data.take i).length ≤ g.length + j), hta,
      List.get?_append_right (by omega : g.length ≤ g.length + j - i), List.get?_drop]
    have harg : i + (g.length + j - i - g.length) = j := by omega
    rw [harg]
    exact hjget
  · intro k hk
    rw [occursAt_single_iff]
    intro hkget
    unfold insertStr at hkget
    rw [List.append_assoc] at hkget
    by_cases h1 : k < i
    · rw [List.get?_append (by omega : k < (data.take i).length),
        List.get?_take h1] at hkget
      exact hmin k (by omega) ((occursAt_single_iff ch data k).mpr hkget)
    · by_cases h2 : k < i + g.length
      · rw [List.get?_append_right (by omega : (data.take i).length ≤ k), hta,
          List.get?_append (by omega : k - i < g.length)] at hkget
        exact hg (List.get?_mem hkget)
      · rw [List.get?_append_right (by omega : (data.take i).length ≤ k), hta,
          List.get?_append_right (by omega : g.length ≤ k - i), List.get?_drop] at hkget
        have harg : i + (k - i - g.length) = k - g.length := by omega
        rw [harg] at hkget
        exact hmin (k - g.length) (by omega)
          ((occursAt_single_iff ch data (k - g.length)).mpr hkget)

/-- Helper: inserting an ansi marker into a text cannot create an
occurrence of a pattern that starts outside the ansi alphabet, avoids
the escape character and did not occur before. -/
theorem findPat_insert_none (p a b m : List Char) (hp : p ≠ [])
    (hEsc : escCh ∉ p) (hd : Char) (hpHead : p.get? 0 = some hd) (hHd : hd ∉ ansiBody)
    (hm : IsAnsiMarker m) (hnone : findPat p (a ++ b) = none) :
    findPat p (a ++ m ++ b) = none := by
  obtain ⟨hmh, hmt⟩ := hm
  obtain ⟨mt, rfl⟩ : ∃ mt, m = escCh :: mt := by
    cases m with
    | nil => simp at hmh
    | cons me mt =>
      have hme : me = escCh := by simpa using hmh
      exact ⟨mt, by rw [hme]⟩
  rw [findPat_eq_none_iff] at hnone ⊢
  simp only [List.append_assoc]
  intro k hocc
  have hplen : 0 < p.length := List.length_pos.mpr hp
  by_cases hk1 : k + p.length ≤ a.length
  · have h1 : occursAt p a k := (occursAt_append_inner ((escCh :: mt) ++ b) hk1).mp hocc
    exact hnone k ((occursAt_append_inner b hk1).mpr h1)
  · by_cases hk2 : k < a.length
    · have hidx : a.length - k < p.length := by omega
      have hchar := occursAt_get? hocc (a.length - k) hidx
      have harg : k + (a.length - k) = a.length := by omega
      rw [harg, List.get?_append_right (le_refl a.length), Nat.sub_self] at hchar
      have hchar' : p.get? (a.length - k) = some escCh := by
        rw [← hchar]; rfl
      exact hEsc (List.get?_mem hchar')
    · by_cases hk3 : k < a.length + (escCh :: mt).length
      · have h0 := occursAt_get? hocc 0 hplen
        rw [Nat.add_zero, hpHead,
          List.get?_append_right (by omega : a.length ≤ k),
          List.get?_append (by omega : k - a.length < (escCh :: mt).length)] at h0
        cases hsub : k - a.length with
        | zero =>
          rw [hsub] at h0
          have hh : hd = escCh := by simpa using h0.symm
          rw [hh] at hpHead
          exact hEsc (List.get?_mem hpHead)
        | succ n =>
          rw [hsub] at h0
          have hh : mt.get? n = some hd := by simpa using h0
          exact hHd (hmt hd (List.get?_mem hh))
      · have hq : occursAt p (a ++ b) (k - (escCh :: mt).length) := by
          have e1 : (a ++ ((escCh :: mt) ++ b)).drop k =
              b.drop (k - a.length - (escCh :: mt).length) := by
            rw [List.drop_append_eq_append_drop, List.drop_append_eq_append_drop,
              List.drop_eq_nil_of_le (by omega : a.length ≤ k),
              List.drop_eq_nil_of_le (by omega : (escCh :: mt).length ≤ k - a.length)]
            simp
          have e2 : (a ++ b).drop (k - (escCh :: mt).length) =
              b.drop (k - a.length - (escCh :: mt).length) := by
            rw [List.drop_append_eq_append_drop,
              List.drop_eq_nil_of_le (by omega : a.length ≤ k - (escCh :: mt).length)]
            have harg : k - (escCh :: mt).length - a.length =
                k - a.length - (escCh :: mt).length := by omega
            rw [harg]
            simp
          unfold occursAt at hocc ⊢
          rw [e2, ← e1]
          exact hocc
        exact hnone _ hq

/-- Helper: marker insertion preserves absence of a whole alternation
of patterns, under the same side conditions per alternative. -/
theorem findAny_insert_none (ps : List (List Char)) (a b m : List Char)
    (hps : ∀ p ∈ ps, p ≠ [] ∧ escCh ∉ p ∧ ∃ hd, p.get? 0 = some hd ∧ hd ∉ ansiBody)
    (hm : IsAnsiMarker m) (hnone : findAny ps (a ++ b) = none) :
    findAny ps (a ++ m ++ b) = none := by
  rw [findAny_eq_none_iff] at hnone ⊢
  intro p hp
  obtain ⟨h1, h2, hd, h3, h4⟩ := hps p hp
  exact findPat_insert_none p a b m h1 h2 hd h3 h4 hm (hnone p hp)

/-- Helper: an occurrence guarantees a first occurrence at or before
it. -/
theorem findPat_some_of_occurs (p s : List Char) (q : Nat) (h : occursAt p s q) :
    ∃ x, findPat p s = some x ∧ x ≤ q := by
  cases hf : findPat p s with
  | none => exact absurd h ((findPat_eq_none_iff p s).mp hf q)
  | some x =>
    obtain ⟨hocc, hmin⟩ := (findPat_eq_some_iff p s x).mp hf
    refine ⟨x, rfl, ?_⟩
    by_contra hgt
    exact hmin q (by omega) h

/-- Helper: an alternation match position is the first match position
of one of the alternatives. -/
theorem findAny_some_mem (ps : List (List Char)) (s : List Char) (i : Nat)
    (h : findAny ps s = some i) : ∃ p, p ∈ ps ∧ findPat p s = some i := by
  induction ps with
  | nil => simp [findAny] at h
  | cons q qs ih =>
    have h' : optMin (findPat q s) (findAny qs s) = some i := h
    cases hq : findPat q s with
    | none =>
      cases ha : findAny qs s with
      | none => rw [hq, ha] at h'; simp [optMin] at h'
      | some y =>
        rw [hq, ha] at h'
        simp [optMin] at h'
        subst h'
        obtain ⟨p, hp, hfp⟩ := ih ha
        exact ⟨p, List.mem_cons_of_mem q hp, hfp⟩
    | some x =>
      cases ha : findAny qs s with
      | none =>
        rw [hq, ha] at h'
        simp [optMin] at h'
        subst h'
        exact ⟨q, List.mem_cons_self q qs, hq⟩
      | some y =>
        rw [hq, ha] at h'
        simp [optMin] at h'
        rcases Nat.le_total x y with hxy | hxy
        · rw [Nat.min_eq_left hxy] at h'
          subst h'
          exact ⟨q, List.mem_cons_self q qs, hq⟩
        · rw [Nat.min_eq_right hxy] at h'
          subst h'
          obtain ⟨p, hp, hfp⟩ := ih ha
          exact ⟨p, List.mem_cons_of_mem q hp, hfp⟩

/-- Helper: the alternation match position is at or before the first
match position of every alternative that matches. -/
theorem findAny_le_of_mem {ps : List (List Char)} {s p : List Char} {x : Nat}
    (hp : p ∈ ps) (hx : findPat p s = some x) :
    ∃ i, findAny ps s = some i ∧ i ≤ x := by
  induction ps with
  | nil => simp at hp
  | cons q qs ih =>
    rcases List.mem_cons.mp hp with rfl | hp'
    · show ∃ i, optMin (findPat p s) (findAny qs s) = some i ∧ i ≤ x
      rw [hx]
      cases ha : findAny qs s with
      | none => exact ⟨x, rfl, le_refl x⟩
      | some y => exact ⟨min x y, rfl, Nat.min_le_left x y⟩
    · obtain ⟨i', hi', hle⟩ := ih hp'
      show ∃ i, optMin (findPat q s) (findAny qs s) = some i ∧ i ≤ x
      rw [hi']
      cases hq : findPat q s with
      | none => exact ⟨i', rfl, hle⟩
      | some x' => exact ⟨min x' i', rfl, le_trans (Nat.min_le_right x' i') hle⟩

/-- Helper: inserting past a prefix is inserting into the suffix. -/
theorem insertStr_append (x y m : List Char) (t : Nat) :
    insertStr (x ++ y) (x.length + t) m = x ++ insertStr y t m := by
  unfold insertStr
  rw [List.take_append, List.drop_append]
  simp [List.append_assoc]

/-- Claim C9: the chunk classification of the avrdude error stream is
positional insertion.  For every chunk: (a) every original character
appears verbatim and in order in the output, only markers are added;
and each of the four tagging steps the handler chains over the chunk
it currently holds (the source searches the already-tagged string,
lines 222-233) inserts its marker exactly at the located leftmost
match of its pattern and leaves the chunk unchanged when its pattern
does not match, which the universal per-step conjuncts state for
every chunk together with the leftmost-occurrence characterisation of
the located position.  End to end on the original chunk this gives:
a chunk whose progress-start pattern matches at i and whose first
percent is at j, with no banner and no error text, comes out with the
green marker exactly at i and the clear marker immediately after the
percent sign, bracketing only the matched span (split chunks holding
only the progress start, or only the percent, get their single marker
at its match position); a banner-only chunk gets the clear marker at
the banner match; an error chunk gets the red marker at the error
match; a chunk matching nothing is forwarded unchanged. -/
theorem stderr_classification_positional (g c r : List Char)
    (hg : IsAnsiMarker g) (hc : IsAnsiMarker c) (hr : IsAnsiMarker r) (data : List Char) :
    data.Sublist (classifyChunk g c r data) ∧
    (∀ i j, findAny greenStartPats data = some i → findPat percentPat data = some j →
      i ≤ j → findPat donePat data = none → findAny redStartPats data = none →
      classifyChunk g c r data =
        data.take i ++ g ++ (data.drop i).take (j + 1 - i) ++ c ++ data.drop (j + 1)) ∧
    (∀ i, findAny greenStartPats data = some i → findPat percentPat data = none →
      findPat donePat data = none → findAny redStartPats data = none →
      classifyChunk g c r data = data.take i ++ g ++ data.drop i) ∧
    (∀ j, findAny greenStartPats data = none → findPat percentPat data = some j →
      findPat donePat data = none → findAny redStartPats data = none →
      classifyChunk g c r data = data.take (j + 1) ++ c ++ data.drop (j + 1)) ∧
    (∀ l, findAny greenStartPats data = none → findPat percentPat data = none →
      findPat donePat data = none → findAny redStartPats data = some l →
      classifyChunk g c r data = data.take l ++ r ++ data.drop l) ∧
    (∀ k, findAny greenStartPats data = none → findPat percentPat data = none →
      findPat donePat data = some k → findAny redStartPats data = none →
      classifyChunk g c r data = data.take k ++ c ++ data.drop k) ∧
    (findAny greenStartPats data = none → findPat percentPat data = none →
      findPat donePat data = none → findAny redStartPats data = none →
      classifyChunk g c r data = data) ∧
    classifyChunk g c r data = step4 r (step3 c (step2 c (step1 g data))) ∧
    (∀ d i, findAny greenStartPats d = some i →
      (∃ p, p ∈ greenStartPats ∧ occursAt p d i) ∧
      (∀ q, q < i → ∀ p, p ∈ greenStartPats → ¬ occursAt p d q) ∧
      step1 g d = d.take i ++ g ++ d.drop i) ∧
    (∀ d j, findPat percentPat d = some j →
      occursAt percentPat d j ∧ (∀ q, q < j → ¬ occursAt percentPat d q) ∧
      step2 c d = d.take (j + 1) ++ c ++ d.drop (j + 1)) ∧
    (∀ d k, findPat donePat d = some k →
      occursAt donePat d k ∧ (∀ q, q < k → ¬ occursAt donePat d q) ∧
      step3 c d = d.take k ++ c ++ d.drop k) ∧
    (∀ d l, findAny redStartPats d = some l →
      (∃ p, p ∈ redStartPats ∧ occursAt p d l) ∧
      (∀ q, q < l → ∀ p, p ∈ redStartPats → ¬ occursAt p d q) ∧
      step4 r d = d.take l ++ r ++ d.drop l) ∧
    (∀ d, findAny greenStartPats d = none → step1 g d = d) ∧
    (∀ d, findPat percentPat d = none → step2 c d = d) ∧
    (∀ d, findPat donePat d = none → step3 c d = d) ∧
    (∀ d, findAny redStartPats d = none → step4 r d = d) := by
  have hredcond : ∀ p ∈ redStartPats,
      p ≠ [] ∧ escCh ∉ p ∧ ∃ hd, p.get? 0 = some hd ∧ hd ∉ ansiBody := by
    intro p hp
    rcases List.mem_cons.mp hp with rfl | hp'
    · exact ⟨by decide, by decide, 'c', by decide, by decide⟩
    · rcases List.mem_cons.mp hp' with rfl | hp''
      · exact ⟨by decide, by decide, 'p', by decide, by decide⟩
      · simp at hp''
  refine ⟨?_, ?_, ?_, ?_, ?_, ?_, ?_, ?_, ?_, ?_, ?_, ?_, ?_, ?_, ?_, ?_⟩
  · exact (((sublist_step1 g data).trans (sublist_step2 c _)).trans
      (sublist_step3 c _)).trans (sublist_step4 r _)
  · intro i j h1 h2 hij h3 h4
    have hperc_not_g : '%' ∉ g := marker_not_mem hg (by decide) (by decide)
    have hd1 : step1 g data = insertStr data i g := by
      unfold step1; rw [h1]
    have hfp2 : findPat percentPat (insertStr data i g) = some (g.length + j) :=
      findPat_single_insert '%' data g i j hij h2 hperc_not_g
    have hd2 : step2 c (step1 g data) =
        insertStr (insertStr data i g) (g.length + j + 1) c := by
      rw [hd1]; unfold step2; rw [hfp2]
    obtain ⟨hocc2, hmin2⟩ := (findPat_eq_some_iff percentPat data j).mp h2
    have hjget : data.get? j = some '%' := (occursAt_single_iff '%' data j).mp hocc2
    have hjlen : j < data.length := by
      rcases List.get?_eq_some.mp hjget with ⟨hlt, _⟩
      exact hlt
    have hta : (data.take i).length = i := by
      rw [List.length_take]; omega
    have hdone1 : findPat donePat (insertStr data i g) = none := by
      have hsplit : findPat donePat (data.take i ++ data.drop i) = none := by
        rw [List.take_append_drop]; exact h3
      exact findPat_insert_none donePat (data.take i) (data.drop i) g (by decide)
        (by decide) 'a' (by decide) (by decide) hg hsplit
    have hdone2 : findPat donePat (insertStr (insertStr data i g) (g.length + j + 1) c) = none := by
      have hsplit : findPat donePat ((insertStr data i g).take (g.length + j + 1) ++
          (insertStr data i g).drop (g.length + j + 1)) = none := by
        rw [List.take_append_drop]; exact hdone1
      exact findPat_insert_none donePat _ _ c (by decide) (by decide) 'a' (by decide)
        (by decide) hc hsplit
    have hd3 : step3 c (insertStr (insertStr data i g) (g.length + j + 1) c) =
        insertStr (insertStr data i g) (g.length + j + 1) c := by
      unfold step3; rw [hdone2]
    have hred1 : findAny redStartPats (insertStr data i g) = none := by
      have hsplit : findAny redStartPats (data.take i ++ data.drop i) = none := by
        rw [List.take_append_drop]; exact h4
      exact findAny_insert_none redStartPats (data.take i) (data.drop i) g hredcond hg hsplit
    have hred2 : findAny redStartPats (insertStr (insertStr data i g) (g.length + j + 1) c) = none := by
      have hsplit : findAny redStartPats ((insertStr data i g).take (g.length + j + 1) ++
          (insertStr data i g).drop (g.length + j + 1)) = none := by
        rw [List.take_append_drop]; exact hred1
      exact findAny_insert_none redStartPats _ _ c hredcond hc hsplit
    have hd4 : step4 r (insertStr (insertStr data i g) (g.length + j + 1) c) =
        insertStr (insertStr data i g) (g.length + j + 1) c := by
      unfold step4; rw [hred2]
    have hshape : insertStr (insertStr data i g) (g.length + j + 1) c =
        data.take i ++ g ++ (data.drop i).take (j + 1 - i) ++ c ++ data.drop (j + 1) := by
      have hpos : g.length + j + 1 = (data.take i ++ g).length + (j + 1 - i) := by
        rw [List.length_append, hta]; omega
      have hleft : insertStr data i g = (data.take i ++ g) ++ data.drop i := by
        unfold insertStr; rfl
      rw [hleft, hpos, insertStr_append]
      have hdrop : (data.drop i).drop (j + 1 - i) = data.drop (j + 1) := by
        rw [List.drop_drop]
        have harith : i + (j + 1 - i) = j + 1 := by omega
        rw [harith]
      unfold insertStr
      rw [hdrop]
      simp [List.append_assoc]
    show step4 r (step3 c (step2 c (step1 g data))) = _
    rw [hd2, hd3, hd4]
    exact hshape
  · intro i h1 h2 h3 h4
    have hd1 : step1 g data = insertStr data i g := by unfold step1; rw [h1]
    have hperc : findPat percentPat (insertStr data i g) = none := by
      have hsplit : findPat percentPat (data.take i ++ data.drop i) = none := by
        rw [List.take_append_drop]; exact h2
      exact findPat_insert_none percentPat (data.take i) (data.drop i) g (by decide)
        (by decide) '%' (by decide) (by decide) hg hsplit
    have hd2 : step2 c (insertStr data i g) = insertStr data i g := by
      unfold step2; rw [hperc]
    have hdone : findPat donePat (insertStr data i g) = none := by
      have hsplit : findPat donePat (data.take i ++ data.drop i) = none := by
        rw [List.take_append_drop]; exact h3
      exact findPat_insert_none donePat (data.take i) (data.drop i) g (by decide)
        (by decide) 'a' (by decide) (by decide) hg hsplit
    have hd3 : step3 c (insertStr data i g) = insertStr data i g := by
      unfold step3; rw [hdone]
    have hred : findAny redStartPats (insertStr data i g) = none := by
      have hsplit : findAny redStartPats (data.take i ++ data.drop i) = none := by
        rw [List.take_append_drop]; exact h4
      exact findAny_insert_none redStartPats (data.take i) (data.drop i) g hredcond hg hsplit
    have hd4 : step4 r (insertStr data i g) = insertStr data i g := by
      unfold step4; rw [hred]
    show step4 r (step3 c (step2 c (step1 g data))) = _
    rw [hd1, hd2, hd3, hd4]
    rfl
  · intro j h1 h2 h3 h4
    have hd1 : step1 g data = data := by unfold step1; rw [h1]
    have hd2 : step2 c data = insertStr data (j + 1) c := by unfold step2; rw [h2]
    have hdone : findPat donePat (insertStr data (j + 1) c) = none := by
      have hsplit : findPat donePat (data.take (j + 1) ++ data.drop (j + 1)) = none := by
        rw [List.take_append_drop]; exact h3
      exact findPat_insert_none donePat (data.take (j + 1)) (data.drop (j + 1)) c (by decide)
        (by decide) 'a' (by decide) (by decide) hc hsplit
    have hd3 : step3 c (insertStr data (j + 1) c) = insertStr data (j + 1) c := by
      unfold step3; rw [hdone]
    have hred : findAny redStartPats (insertStr data (j + 1) c) = none := by
      have hsplit : findAny redStartPats (data.take (j + 1) ++ data.drop (j + 1)) = none := by
        rw [List.take_append_drop]; exact h4
      exact findAny_insert_none redStartPats (data.take (j + 1)) (data.drop (j + 1)) c
        hredcond hc hsplit
    have hd4 : step4 r (insertStr data (j + 1) c) = insertStr data (j + 1) c := by
      unfold step4; rw [hred]
    show step4 r (step3 c (step2 c (step1 g data))) = _
    rw [hd1, hd2, hd3, hd4]
    rfl
  · intro l h1 h2 h3 h4
    have hd1 : step1 g data = data := by unfold step1; rw [h1]
    have hd2 : step2 c data = data := by unfold step2; rw [h2]
    have hd3 : step3 c data = data := by unfold step3; rw [h3]
    have hd4 : step4 r data = insertStr data l r := by unfold step4; rw [h4]
    show step4 r (step3 c (step2 c (step1 g data))) = _
    rw [hd1, hd2, hd3, hd4]
    rfl
  · intro k h1 h2 h3 h4
    have hd1 : step1 g data = data := by unfold step1; rw [h1]
    have hd2 : step2 c data = data := by unfold step2; rw [h2]
    have hd3 : step3 c data = insertStr data k c := by unfold step3; rw [h3]
    have hred : findAny redStartPats (insertStr data k c) = none := by
      have hsplit : findAny redStartPats (data.take k ++ data.drop k) = none := by
        rw [List.take_append_drop]; exact h4
      exact findAny_insert_none redStartPats (data.take k) (data.drop k) c hredcond hc hsplit
    have hd4 : step4 r (insertStr data k c) = insertStr data k c := by
      unfold step4; rw [hred]
    show step4 r (step3 c (step2 c (step1 g data))) = _
    rw [hd1, hd2, hd3, hd4]
    rfl
  · intro h1 h2 h3 h4
    have hd1 : step1 g data = data := by unfold step1; rw [h1]
    have hd2 : step2 c data = data := by unfold step2; rw [h2]
    have hd3 : step3 c data = data := by unfold step3; rw [h3]
    have hd4 : step4 r data = data := by unfold step4; rw [h4]
    show step4 r (step3 c (step2 c (step1 g data))) = data
    rw [hd1, hd2, hd3, hd4]
  · rfl
  · intro d i h
    obtain ⟨p, hp, hfp⟩ := findAny_some_mem greenStartPats d i h
    obtain ⟨hocc, _⟩ := (findPat_eq_some_iff p d i).mp hfp
    refine ⟨⟨p, hp, hocc⟩, ?_, ?_⟩
    · intro q hq p' hp' hocc'
      obtain ⟨x, hx, hxq⟩ := findPat_some_of_occurs p' d q hocc'
      obtain ⟨i', hi', hle⟩ := findAny_le_of_mem hp' hx
      rw [h] at hi'
      injection hi' with hii
      omega
    · unfold step1
      rw [h]
      rfl
  · intro d j h
    obtain ⟨hocc, hmin⟩ := (findPat_eq_some_iff percentPat d j).mp h
    refine ⟨hocc, hmin, ?_⟩
    unfold step2
    rw [h]
    rfl
  · intro d k h
    obtain ⟨hocc, hmin⟩ := (findPat_eq_some_iff donePat d k).mp h
    refine ⟨hocc, hmin, ?_⟩
    unfold step3
    rw [h]
    rfl
  · intro d l h
    obtain ⟨p, hp, hfp⟩ := findAny_some_mem redStartPats d l h
    obtain ⟨hocc, _⟩ := (findPat_eq_some_iff p d l).mp hfp
    refine ⟨⟨p, hp, hocc⟩, ?_, ?_⟩
    · intro q hq p' hp' hocc'
      obtain ⟨x, hx, hxq⟩ := findPat_some_of_occurs p' d q hocc'
      obtain ⟨l', hl', hle⟩ := findAny_le_of_mem hp' hx
      rw [h] at hl'
      injection hl' with hll
      omega
    · unfold step4
      rw [h]
      rfl
  · intro d h
    unfold step1
    rw [h]
  · intro d h
    unfold step2
    rw [h]
  · intro d h
    unfold step3
    rw [h]
  · intro d h
    unfold step4
    rw [h]

/-- Witness for the classification claim on a concrete chunk with
plain text on both sides of the progress span and concrete ansi
markers. -/
theorem stderr_classification_positional_witness :
    IsAnsiMarker gMark ∧ IsAnsiMarker cMark ∧ IsAnsiMarker rMark ∧
    findAny greenStartPats chunk0 = some 3 ∧ findPat percentPat chunk0 = some 15 ∧
    3 ≤ 15 ∧ findPat donePat chunk0 = none ∧ findAny redStartPats chunk0 = none ∧
    classifyChunk gMark cMark rMark chunk0 =
      chunk0.take 3 ++ gMark ++ (chunk0.drop 3).take 13 ++ cMark ++ chunk0.drop 16 := by
  refine ⟨by decide, by decide, by decide, by decide, by decide, by decide, by decide,
    by decide, ?_⟩
  exact (stderr_classification_positional gMark cMark rMark (by decide) (by decide)
    (by decide) chunk0).2.1 3 15 (by decide) (by decide) (by decide) (by decide) (by decide)

/-- Claim C3 evidence: in every build invocation the arduino-builder
spawn event sits at position 4 of the trace and the sketch write event
at position 5, and no write event occurs before the spawn: the
writeFileSync runs in the un-awaited osLocale then-callback, which is
scheduled after the synchronous executor body that performs the spawn,
so the write never completes before the builder is spawned. -/
theorem sketch_write_after_builder_spawn :
    ∀ (x : Arduino) (extExists : Bool),
      (buildTrace x extExists).get? 4 = some (BuildEv.spawnBuilder (buildArgs x extExists)) ∧
      (buildTrace x extExists).get? 5 = some (BuildEv.writeCode x.codefilePath) ∧
      ((buildTrace x extExists).take 5).all (fun e => !(isWriteCodeEv e)) = true := by
  intro x extExists
  refine ⟨rfl, rfl, rfl⟩

/-- Claim C8 counterexample: with the extensions libraries directory
present, the argument list is not the base list with the extensions
pair inserted immediately after the base libraries argument; in fact
the extensions path occurs strictly before the base libraries path in
the final list. -/
theorem ext_libraries_not_after_base_cex :
    buildArgs inst0 true ≠
      (baseArgs inst0).take 10 ++ ["-libraries", extensionsLibraries inst0] ++ (baseArgs inst0).drop 10 ∧
    (buildArgs inst0 true).indexOf (extensionsLibraries inst0) <
      (buildArgs inst0 true).indexOf (pathJoin inst0.arduinoPath "libraries") := by
  constructor
  · decide
  · decide

/-- Claim C8 amended: when the extensions libraries directory exists the
pair is spliced in at index 6, which is immediately after the first
-tools pair and before the second -tools pair, so the extensions
libraries path (positions 6-7) precedes the base libraries pair, which
ends up at positions 10-11; when the directory does not exist the
argument list is exactly the fixed base list. -/
theorem ext_libraries_inserted_at_index_six :
    ∀ x : Arduino,
      buildArgs x true =
        (baseArgs x).take 6 ++ ["-libraries", extensionsLibraries x] ++ (baseArgs x).drop 6 ∧
      buildArgs x false = baseArgs x ∧
      (buildArgs x true).get? 6 = some "-libraries" ∧
      (buildArgs x true).get? 7 = some (extensionsLibraries x) ∧
      (buildArgs x true).get? 10 = some "-libraries" ∧
      (buildArgs x true).get? 11 = some (pathJoin x.arduinoPath "libraries") ∧
      (buildArgs x true).get? 8 = some "-tools" := by
  intro x
  refine ⟨rfl, rfl, rfl, rfl, rfl, rfl, rfl⟩

/-- Claim C1 evidence: on one Leonardo-configured instance, a first
flash whose rescan sees dev0 caches COM5 and passes port -PCOM5; a
second flash on the same instance whose own rescan returns an empty
peripheral list still succeeds and passes the stale -PCOM5 to avrdude,
whereas the very same flash from a fresh instance state fails with the
rediscovery error: the later flash outcome depends on the path
rediscovered by the earlier one, which is silently reused. -/
theorem stale_leonardo_path_reused_across_flashes :
    (flashRun dir0 inst0 initSt (some [dev0]) none).2 = .ok (st1, avrdudeArgs inst0 st1 none) ∧
    (flashRun dir0 inst0 st1 (some []) none).2 = .ok (st1, avrdudeArgs inst0 st1 none) ∧
    (avrdudeArgs inst0 st1 none).get? 5 = some "-PCOM5" ∧
    (flashRun dir0 inst0 initSt (some []) none).2 =
      .error (FlashErr.deviceNotFound "cannot discover leonardo") := by
  set_option maxRecDepth 10000 in
  refine ⟨rfl, rfl, rfl, rfl⟩

/-- Helper: a board whose fqbn is in neither touch-reset case skips the
handshake entirely and spawns avrdude directly with unchanged state. -/
theorem flashRun_nonTouch (dir : Dir) (inst : Arduino) (st : St)
    (lr : Option (List Device)) (fw : Option String)
    (h1 : inst.config.fqbn ≠ "arduino:avr:leonardo")
    (h2 : inst.config.fqbn ≠ "SparkFun:avr:makeymakey") :
    flashRun dir inst st lr fw =
      ([.spawnAvrdude (avrdudeArgs inst st fw)], .ok (st, avrdudeArgs inst st fw)) := by
  simp [flashRun, h1, h2]

/-- Helper: a truthy cached leonardo path wins the port precedence. -/
theorem portSel_leo (p : String) (hp : p ≠ "") (mak : Option String) (periph : String) :
    portSel (some p) mak periph = "-P" ++ p := by
  have hb : (p == "") = false := beq_eq_false_iff_ne.mpr hp
  simp [portSel, jsTruthy, hb]

/-- Claim C5: for an instance whose board is not in the touch-reset
list, any sequence of flash invocations starting from the constructor
state performs no connect, disconnect or list capability call, and
every avrdude spawn carries the originally supplied peripheral path as
its port argument. -/
theorem non_touch_flash_skips_handshake (dir : Dir) (inst : Arduino)
    (ins : List (Option (List Device) × Option String))
    (h1 : inst.config.fqbn ≠ "arduino:avr:leonardo")
    (h2 : inst.config.fqbn ≠ "SparkFun:avr:makeymakey") :
    ∀ tr ∈ (flashSeq dir inst ins initSt).1,
      (∀ e ∈ tr, isConnectEv e = false ∧ isDisconnectEv e = false ∧ isListEv e = false) ∧
      (∀ args, Ev.spawnAvrdude args ∈ tr →
        args.get? 5 = some ("-P" ++ inst.peripheralPath)) := by
  induction ins with
  | nil => intro tr htr; simp [flashSeq] at htr
  | cons head rest ih =>
    obtain ⟨lr, fw⟩ := head
    intro tr htr
    rw [flashSeq] at htr
    simp only [flashRun_nonTouch dir inst initSt lr fw h1 h2, List.mem_cons] at htr
    rcases htr with htr | htr
    · subst htr
      constructor
      · intro e he
        simp only [List.mem_singleton] at he
        subst he
        exact ⟨rfl, rfl, rfl⟩
      · intro args hargs
        simp only [List.mem_singleton, Ev.spawnAvrdude.injEq] at hargs
        subst hargs
        rfl
    · exact ih tr htr

/-- Witness for the non-touch flash claim at a concrete Uno instance
and a concrete two-flash input sequence. -/
theorem non_touch_flash_skips_handshake_witness :
    ("arduino:avr:uno" ≠ "arduino:avr:leonardo") ∧
    ("arduino:avr:uno" ≠ "SparkFun:avr:makeymakey") ∧
    (∀ tr ∈ (flashSeq dir0 inst0u ins0 initSt).1,
      (∀ e ∈ tr, isConnectEv e = false ∧ isDisconnectEv e = false ∧ isListEv e = false) ∧
      (∀ args, Ev.spawnAvrdude args ∈ tr →
        args.get? 5 = some ("-P" ++ inst0u.peripheralPath))) :=
  ⟨by decide, by decide,
    non_touch_flash_skips_handshake dir0 inst0u ins0 (by decide) (by decide)⟩

/-- Claim C7: with the fqbn forced to either touch-reset board, the
flash trace starts with exactly the handshake sequence: one connect at
baud 1200 with exclusive access, a 100 ms wait, one disconnect, a
1000 ms wait, then the rescan; connect, disconnect and list each occur
exactly once in the whole trace. -/
theorem touch_reset_handshake_sequence (dir : Dir) (inst : Arduino) (st : St)
    (lr : Option (List Device)) (fw : Option String) :
    ((flashRun dir { inst with config := { inst.config with fqbn := "arduino:avr:leonardo" } } st lr fw).1.take 5 =
        [Ev.connect 1200 true, Ev.wait 100, Ev.disconnect, Ev.wait 1000, Ev.list] ∧
      (flashRun dir { inst with config := { inst.config with fqbn := "arduino:avr:leonardo" } } st lr fw).1.countP isConnectEv = 1 ∧
      (flashRun dir { inst with config := { inst.config with fqbn := "arduino:avr:leonardo" } } st lr fw).1.countP isDisconnectEv = 1 ∧
      (flashRun dir { inst with config := { inst.config with fqbn := "arduino:avr:leonardo" } } st lr fw).1.countP isListEv = 1) ∧
    ((flashRun dir { inst with config := { inst.config with fqbn := "SparkFun:avr:makeymakey" } } st lr fw).1.take 5 =
        [Ev.connect 1200 true, Ev.wait 100, Ev.disconnect, Ev.wait 1000, Ev.list] ∧
      (flashRun dir { inst with config := { inst.config with fqbn := "SparkFun:avr:makeymakey" } } st lr fw).1.countP isConnectEv = 1 ∧
      (flashRun dir { inst with config := { inst.config with fqbn := "SparkFun:avr:makeymakey" } } st lr fw).1.countP isDisconnectEv = 1 ∧
      (flashRun dir { inst with config := { inst.config with fqbn := "SparkFun:avr:makeymakey" } } st lr fw).1.countP isListEv = 1) := by
  constructor
  · cases hr : rediscoverFrom dir "Arduino Leonardo" "cannot discover leonardo" st.leonardoPath lr with
    | error e =>
      simp [flashRun, hr, handshakeEvents, isConnectEv, isDisconnectEv, isListEv,
        List.countP_cons, List.countP_nil]
    | ok p =>
      simp [flashRun, hr, handshakeEvents, isConnectEv, isDisconnectEv, isListEv,
        List.countP_cons, List.countP_nil]
  · cases hr : rediscoverFrom dir "Makey Makey" "cannot discover makeymakey" st.makeymakeyPath lr with
    | error e =>
      simp [flashRun, hr, handshakeEvents, isConnectEv, isDisconnectEv, isListEv,
        List.countP_cons, List.countP_nil]
    | ok p =>
      simp [flashRun, hr, handshakeEvents, isConnectEv, isDisconnectEv, isListEv,
        List.countP_cons, List.countP_nil]

/-- Claim C10 counterexample: a cached leonardo path that is non-null
but empty is skipped by the JavaScript truthiness test of the port
ternary, so the originally supplied peripheral path is used instead of
the non-null cached path the claim prescribes. -/
theorem cached_empty_path_skipped_cex :
    portSel (some "") none "COM3" = "-PCOM3" ∧ portSel (some "") none "COM3" ≠ "-P" := by
  constructor
  · rfl
  · decide

/-- Claim C10 amended: on every flash invocation of a board profile
other than the Leonardo one, whenever the cached leonardo path is
non-null and non-empty (truthy), the port argument handed to avrdude
is that cached path, even for a Makey Makey profile (whose handshake
only writes the makeymakey cache) and for non-touch-reset boards; the
makeymakey cache and the original peripheral path are only consulted
when the leonardo cache is not truthy. -/
theorem cached_leonardo_path_precedence (dir : Dir) (inst : Arduino) (st : St)
    (lr : Option (List Device)) (fw : Option String) (p : String)
    (h0 : inst.config.fqbn ≠ "arduino:avr:leonardo")
    (h1 : st.leonardoPath = some p) (h2 : p ≠ "") :
    ∀ args, Ev.spawnAvrdude args ∈ (flashRun dir inst st lr fw).1 →
      args.get? 5 = some ("-P" ++ p) := by
  intro args hargs
  by_cases hm : inst.config.fqbn = "SparkFun:avr:makeymakey"
  · cases hr : rediscoverFrom dir "Makey Makey" "cannot discover makeymakey" st.makeymakeyPath lr with
    | error e =>
      simp [flashRun, h0, hm, hr, handshakeEvents] at hargs
    | ok q =>
      simp [flashRun, h0, hm, hr, handshakeEvents] at hargs
      subst hargs
      simp [avrdudeArgs, h1, portSel_leo p h2]
  · rw [flashRun_nonTouch dir inst st lr fw h0 hm] at hargs
    simp only [List.mem_singleton, Ev.spawnAvrdude.injEq] at hargs
    subst hargs
    simp [avrdudeArgs, h1, portSel_leo p h2]

/-- Witness for the amended port-precedence claim: a Makey Makey
profile with a stale cached leonardo path COM7 whose own handshake
rediscovers COM9 still hands avrdude the leonardo path. -/
theorem cached_leonardo_path_precedence_witness :
    ("SparkFun:avr:makeymakey" ≠ "arduino:avr:leonardo") ∧
    stLeo7.leonardoPath = some "COM7" ∧ ("COM7" ≠ "") ∧
    (∀ args, Ev.spawnAvrdude args ∈ (flashRun dirMM instMM stLeo7 (some [devMM]) none).1 →
      args.get? 5 = some ("-P" ++ "COM7")) :=
  ⟨by decide, rfl, by decide,
    cached_leonardo_path_precedence dirMM instMM stLeo7 (some [devMM]) none "COM7"
      (by decide) rfl (by decide)⟩

end ArduinoUpload
